import Mathlib

/-!
Verification of the five-card-draw poker engine (src/Main.py): a shallow
embedding of the hand evaluator, the opponent policy, the betting-round state
machine and the session bookkeeping, together with theorems settling the
specification claims.

Conventions of the embedding:
* a card is the pair (rank, suit) that the source recovers from its string
  representation via card_rank / card_suit (ranks 2..14, suits 0..3);
* Python ints are Lean `Int`; Python `//` on ints is `Int.fdiv` (floor);
* the human's console tokens form a `List Int` input stream, and functions
  that read input return `none` when the stream runs out (the source would
  block re-prompting);
* the single random draw `random.random() < 0.3` in ai_bet_decision is
  abstracted as a Boolean argument, one per AI turn, drawn from a stream.
-/

set_option maxHeartbeats 1000000

namespace FiveCardDraw

/-- A playing card: (rank, suit); the source's card_rank parses rank 2..14 and
card_suit the suit symbol, which we number 0..3. -/
abbrev Card := Int × Nat

def card_rank (c : Card) : Int := c.1

def card_suit (c : Card) : Nat := c.2

/-- Python `sorted(l, reverse=True)` on ints. -/
def sortDesc (l : List Int) : List Int := l.insertionSort (· ≥ ·)

/-- Descending lexicographic order on (count, rank) pairs: `pairDescLe p q`
says p sorts no later than q under Python
`sorted(..., key=lambda x: (x[0], x[1]), reverse=True)`. -/
def pairDescLe (p q : Nat × Int) : Prop := q.1 < p.1 ∨ (p.1 = q.1 ∧ q.2 ≤ p.2)

instance : DecidableRel pairDescLe := fun p q => by
  unfold pairDescLe; infer_instance

instance : IsTotal (Nat × Int) pairDescLe := by
  constructor; intro p q; unfold pairDescLe; omega

instance : IsTrans (Nat × Int) pairDescLe := by
  constructor; intro p q u; unfold pairDescLe; omega

def sortPairsDesc (l : List (Nat × Int)) : List (Nat × Int) :=
  l.insertionSort pairDescLe

/-- `ranks = sorted([card_rank(c) for c in hand], reverse=True)` -/
def ranksDesc (hand : List Card) : List Int := sortDesc (hand.map card_rank)

def suitsOf (hand : List Card) : List Nat := hand.map card_suit

/-- `is_flush = len(set(suits)) == 1` -/
def isFlush (hand : List Card) : Bool := (suitsOf hand).dedup.length = 1

/-- `unique_ranks = sorted(set(ranks), reverse=True)` -/
def uniqueRanks (hand : List Card) : List Int := sortDesc (ranksDesc hand).dedup

/-- The window loop of _is_straight: first index i with
`window[0] - window[4] == 4` over the descending unique ranks, scanning left
to right and stopping at the first hit. -/
def findStraightHigh : List Int → Option Int
  | [] => none
  | a :: rest =>
    if h : 4 ≤ rest.length then
      if a - rest.get ⟨3, by omega⟩ = 4 then some a else findStraightHigh rest
    else none

/-- _is_straight(unique_desc_ranks): (is_straight, straight_high); the wheel
A-2-3-4-5 counts as a straight with high card 5. -/
def _is_straight (u : List Int) : Bool × Int :=
  if u.length < 5 then (false, 0)
  else
    match findStraightHigh u with
    | some h => (true, h)
    | none =>
      if [14, 5, 4, 3, 2].all (fun r => u.contains r) then (true, 5)
      else (false, 0)

/-- `groups = sorted(((cnt, r) for r, cnt in rank_counts.items()), key=..., reverse=True)`;
rank_counts.get r is (ranksDesc hand).count r, and the dict key set is the set
of distinct ranks (the sort makes the dict iteration order irrelevant: the
keys are distinct, so the sorted result is the same for any enumeration). -/
def groupsOf (hand : List Card) : List (Nat × Int) :=
  sortPairsDesc (((ranksDesc hand).dedup).map fun r => ((ranksDesc hand).count r, r))

/-- `counts_sorted = [cnt for cnt, _ in groups]` -/
def countsSorted (hand : List Card) : List Nat := (groupsOf hand).map Prod.fst

/-- Python `max(...)` over a list of ranks; every use site is on a nonempty
list of ranks ≥ 2, so the default 0 is inert. -/
def listMax (l : List Int) : Int := l.foldr max 0

/-- evaluate_hand: (rank_class, tie_breakers...) as a flat int list, compared
lexicographically; rank_class 8 = straight flush down to 0 = high card. -/
def evaluate_hand (hand : List Card) : List Int :=
  if (_is_straight (uniqueRanks hand)).1 = true ∧ isFlush hand = true then
    [8, (_is_straight (uniqueRanks hand)).2]
  else if (countsSorted hand).headI = 4 then
    [7, (groupsOf hand).headI.2,
      listMax ((ranksDesc hand).filter fun r => decide (r ≠ (groupsOf hand).headI.2))]
  else if (countsSorted hand).headI = 3 ∧ (countsSorted hand).getD 1 0 = 2 then
    [6, (groupsOf hand).headI.2, ((groupsOf hand).getD 1 (0, 0)).2]
  else if isFlush hand = true then
    5 :: sortDesc (ranksDesc hand)
  else if (_is_straight (uniqueRanks hand)).1 = true then
    [4, (_is_straight (uniqueRanks hand)).2]
  else if (countsSorted hand).headI = 3 then
    3 :: (groupsOf hand).headI.2 ::
      sortDesc ((ranksDesc hand).filter fun r => decide (r ≠ (groupsOf hand).headI.2))
  else if (countsSorted hand).headI = 2 ∧ (countsSorted hand).getD 1 0 = 2 then
    [2, max (groupsOf hand).headI.2 ((groupsOf hand).getD 1 (0, 0)).2,
      min (groupsOf hand).headI.2 ((groupsOf hand).getD 1 (0, 0)).2,
      listMax ((ranksDesc hand).filter fun r =>
        decide (r ≠ max (groupsOf hand).headI.2 ((groupsOf hand).getD 1 (0, 0)).2 ∧
                r ≠ min (groupsOf hand).headI.2 ((groupsOf hand).getD 1 (0, 0)).2))]
  else if (countsSorted hand).headI = 2 then
    1 :: (groupsOf hand).headI.2 ::
      sortDesc ((ranksDesc hand).filter fun r => decide (r ≠ (groupsOf hand).headI.2))
  else
    0 :: sortDesc (ranksDesc hand)

/-- Python tuple comparison (lexicographic), returning 1 / -1 / 0 as
compare_hands does. -/
def cmpList : List Int → List Int → Int
  | [], [] => 0
  | [], _ :: _ => -1
  | _ :: _, [] => 1
  | a :: as, b :: bs => if b < a then 1 else if a < b then -1 else cmpList as bs

def compare_hands (h1 h2 : List Card) : Int :=
  cmpList (evaluate_hand h1) (evaluate_hand h2)

/-- `_find_pair_rank(counts)`: the first rank with count 2 in dict insertion
order (= first-occurrence order of the unsorted rank list, so it is the first
element of the list whose count is 2), else -1. -/
def _find_pair_rank (ranks : List Int) : Int :=
  match ranks.find? (fun r => ranks.count r == 2) with
  | some r => r
  | none => -1

/-- ai_choose_discards: 0-based indices of the cards the opponent discards. -/
def ai_choose_discards (hand : List Card) : List Nat :=
  let ranks := hand.map card_rank
  let eval_rank := (evaluate_hand hand).headI
  if 2 ≤ eval_rank then []
  else if eval_rank = 1 then
    let pair_rank := _find_pair_rank ranks
    (ranks.enum.filter (fun p => decide (p.2 ≠ pair_rank))).map Prod.fst
  else
    let keep0 := (ranks.enum.filter (fun p => decide (12 ≤ p.2))).map Prod.fst
    let keep_idxs := if 2 < keep0.length then keep0.take 2 else keep0
    let discard := (List.range hand.length).filter (fun i => decide (i ∉ keep_idxs))
    if 3 < discard.length then discard.take 3 else discard

inductive Stage
  | pre
  | post
deriving DecidableEq, Repr

inductive AiAction
  | fold
  | check
  | call
  | bet
  | raise
deriving DecidableEq, Repr

/-- ai_bet_decision(stage, hand, can_raise, to_call, ai_bank, pot); the one
random draw `random.random() < 0.3` is the Boolean spec_draw. -/
def ai_bet_decision (stage : Stage) (hand : List Card) (can_raise : Bool)
    (to_call ai_bank pot : Int) (spec_draw : Bool) : AiAction × Int :=
  let strength := (evaluate_hand hand).headI
  if 0 < to_call then
    if 3 ≤ strength then
      if can_raise = true ∧ to_call < ai_bank ∧ 2 ≤ pot then
        (.raise, max 1 (min (ai_bank - to_call) (max 2 (pot.fdiv 4))))
      else (.call, to_call)
    else if strength = 2 then
      if to_call ≤ max 2 (pot.fdiv 3) ∨ to_call ≤ ai_bank.fdiv 6 then (.call, to_call)
      else (.fold, 0)
    else if strength = 1 then
      if to_call ≤ max 1 (pot.fdiv 5) then (.call, to_call) else (.fold, 0)
    else
      if to_call ≤ 1 ∧ spec_draw = true then (.call, to_call) else (.fold, 0)
  else
    if 3 ≤ strength ∧ 0 < ai_bank then
      (.bet, min ai_bank (max 2 (if 0 < pot then pot.fdiv 4 else 2)))
    else if stage = .post ∧ strength = 2 then
      (.bet, min ai_bank (max 2 (if 0 < pot then pot.fdiv 4 else 2)))
    else (.check, 0)

/-- The money fields of GameState (hands and deck are passed separately where
needed; round_num does not influence any claim). -/
structure GameState where
  player_bank : Int
  ai_bank : Int
  pot : Int
deriving DecidableEq, Repr

/-- GameState.__init__: both banks 50 and pot already 10. -/
def GameState.init : GameState := { player_bank := 50, ai_bank := 50, pot := 10 }

/-- The money part of GameState.new_hand: pot is assigned 10 (not incremented)
and each bank pays the 5-chip ante; dealing is handled by the session
relation. -/
def GameState.new_hand (g : GameState) : GameState :=
  { g with pot := 10, player_bank := g.player_bank - 5, ai_bank := g.ai_bank - 5 }

def sessionTotal (g : GameState) : Int := g.player_bank + g.ai_bank + g.pot

inductive Side
  | player
  | ai
deriving DecidableEq, Repr

/-- The state of one betting round: the GameState money fields together with
the locals to_call / last_bettor / has_raised of betting_round. `raises` is a
ghost event counter (not a source variable): it is incremented exactly where
the source executes a raise transition, and is used only to state the
at-most-one-raise property. -/
structure RState where
  player_bank : Int
  ai_bank : Int
  pot : Int
  to_call : Int
  last_bettor : Option Side
  has_raised : Bool
  raises : Nat
deriving DecidableEq, Repr

def RState.toGame (s : RState) : GameState :=
  { player_bank := s.player_bank, ai_bank := s.ai_bank, pot := s.pot }

/-- The round-local initialization at the top of betting_round. -/
def initRound (g : GameState) : RState :=
  { player_bank := g.player_bank, ai_bank := g.ai_bank, pot := g.pot,
    to_call := 0, last_bettor := none, has_raised := false, raises := 0 }

/-- get_positive_int: consumes tokens from the input stream until one is a
positive integer not exceeding max_value; returns it with the unconsumed
stream, or none when the stream is exhausted (the source would keep
prompting). Invalid (non-numeric) console entries are modeled as
out-of-range tokens. -/
def get_positive_int (inputs : List Int) (max_value : Int) : Option (Int × List Int) :=
  match inputs with
  | [] => none
  | v :: rest =>
    if v ≤ 0 then get_positive_int rest max_value
    else if max_value < v then get_positive_int rest max_value
    else some (v, rest)

/-- player_turn of betting_round. The human's console tokens form the stream
`inputs` (menu choices 1/2/3 and bet amounts). Returns none when the stream
runs out; otherwise some (continue?, state, unconsumed stream), where
continue? = false means the player folded (the source returns False and the
pot has been paid to the opponent). Invalid choices re-prompt, i.e. recurse
on the rest of the stream with the state unchanged. -/
def player_turn : RState → List Int → Option (Bool × RState × List Int)
  | _, [] => none
  | s, choice :: rest =>
    if 0 < s.to_call then
      if choice = 1 then
        let call_amt := min s.player_bank s.to_call
        some (true, { s with player_bank := s.player_bank - call_amt,
                             pot := s.pot + call_amt,
                             to_call := s.to_call - call_amt,
                             last_bettor := some .ai }, rest)
      else if choice = 2 ∧ s.has_raised = false then
        if s.player_bank ≤ 0 then player_turn s rest
        else
          match get_positive_int rest s.player_bank with
          | none => none
          | some (raise_amt, rest2) =>
            let total := min s.player_bank (s.to_call + raise_amt)
            some (true, { s with player_bank := s.player_bank - total,
                                 pot := s.pot + total,
                                 to_call := raise_amt,
                                 has_raised := true,
                                 raises := s.raises + 1,
                                 last_bettor := some .player }, rest2)
      else if choice = 3 then
        some (false, { s with ai_bank := s.ai_bank + s.pot, pot := 0 }, rest)
      else player_turn s rest
    else
      if choice = 1 then
        some (true, { s with last_bettor := some .player }, rest)
      else if choice = 2 then
        if s.player_bank ≤ 0 then
          some (true, { s with last_bettor := some .player }, rest)
        else
          match get_positive_int rest s.player_bank with
          | none => none
          | some (bet_amt, rest2) =>
            some (true, { s with player_bank := s.player_bank - bet_amt,
                                 pot := s.pot + bet_amt,
                                 to_call := bet_amt,
                                 last_bettor := some .player }, rest2)
      else player_turn s rest

/-- ai_turn of betting_round; consumes one Boolean from the random stream.
The Bool result is false exactly when the opponent folds. -/
def ai_turn (stage : Stage) (ai_hand : List Card) (spec_draw : Bool) (s : RState) :
    Bool × RState :=
  let dec := ai_bet_decision stage ai_hand (!s.has_raised) s.to_call s.ai_bank s.pot spec_draw
  if 0 < s.to_call then
    if dec.1 = .fold then
      (false, { s with player_bank := s.player_bank + s.pot, pot := 0 })
    else if dec.1 = .call then
      let pay := min s.ai_bank s.to_call
      (true, { s with ai_bank := s.ai_bank - pay, pot := s.pot + pay,
                      to_call := s.to_call - pay, last_bettor := some .player })
    else if dec.1 = .raise ∧ s.has_raised = false ∧ s.to_call < s.ai_bank then
      let raise_amt := min (s.ai_bank - s.to_call) (max 1 dec.2)
      let pay := min s.ai_bank (s.to_call + raise_amt)
      (true, { s with ai_bank := s.ai_bank - pay, pot := s.pot + pay,
                      to_call := raise_amt, has_raised := true,
                      raises := s.raises + 1, last_bettor := some .ai })
    else
      let pay := min s.ai_bank s.to_call
      (true, { s with ai_bank := s.ai_bank - pay, pot := s.pot + pay,
                      to_call := s.to_call - pay, last_bettor := some .player })
  else
    if dec.1 = .bet ∧ 0 < s.ai_bank then
      let bet_amt := min s.ai_bank (max 1 dec.2)
      (true, { s with ai_bank := s.ai_bank - bet_amt, pot := s.pot + bet_amt,
                      to_call := bet_amt, last_bettor := some .ai })
    else (true, { s with last_bettor := some .ai })

/-- The while loop of betting_round, with a structural fuel (betting_round
passes inputs.length + 1, which suffices since every iteration consumes at
least one input token through player_turn). Returns none if input runs out,
otherwise some (no_fold?, state, unconsumed input, unconsumed randomness). -/
def betting_loop (stage : Stage) (ai_hand : List Card) :
    Nat → Bool → RState → List Int → List Bool →
    Option (Bool × RState × List Int × List Bool)
  | 0, _, _, _, _ => none
  | fuel + 1, player_first, s, inputs, rnds =>
    if player_first then
      match player_turn s inputs with
      | none => none
      | some (false, s1, in1) => some (false, s1, in1, rnds)
      | some (true, s1, in1) =>
        if s1.to_call = 0 ∧ s1.last_bettor = some .player then
          match ai_turn stage ai_hand rnds.headI s1 with
          | (false, s2) => some (false, s2, in1, rnds.tail)
          | (true, s2) =>
            if s2.to_call = 0 then some (true, s2, in1, rnds.tail)
            else betting_loop stage ai_hand fuel player_first s2 in1 rnds.tail
        else
          match ai_turn stage ai_hand rnds.headI s1 with
          | (false, s2) => some (false, s2, in1, rnds.tail)
          | (true, s2) =>
            if s2.to_call = 0 then some (true, s2, in1, rnds.tail)
            else betting_loop stage ai_hand fuel true s2 in1 rnds.tail
    else
      match ai_turn stage ai_hand rnds.headI s with
      | (false, s1) => some (false, s1, inputs, rnds.tail)
      | (true, s1) =>
        if s1.to_call = 0 ∧ s1.last_bettor = some .ai then
          match player_turn s1 inputs with
          | none => none
          | some (false, s2, in2) => some (false, s2, in2, rnds.tail)
          | some (true, s2, in2) =>
            if s2.to_call = 0 then some (true, s2, in2, rnds.tail)
            else betting_loop stage ai_hand fuel player_first s2 in2 rnds.tail
        else
          match player_turn s1 inputs with
          | none => none
          | some (false, s2, in2) => some (false, s2, in2, rnds.tail)
          | some (true, s2, in2) =>
            if s2.to_call = 0 then some (true, s2, in2, rnds.tail)
            else betting_loop stage ai_hand fuel player_first s2 in2 rnds.tail

/-- betting_round(state, stage): initializes the round locals and runs the
loop; player acts first exactly in the pre-draw round. -/
def betting_round (g : GameState) (stage : Stage) (ai_hand : List Card)
    (inputs : List Int) (rnds : List Bool) :
    Option (Bool × RState × List Int × List Bool) :=
  betting_loop stage ai_hand (inputs.length + 1) (stage = Stage.pre) (initRound g)
    inputs rnds

/-- showdown: compares the final hands and pays the pot (split on a tie, the
odd chip going to the opponent). -/
def showdown (player_hand ai_hand : List Card) (g : GameState) : GameState :=
  if 0 < compare_hands player_hand ai_hand then
    { g with player_bank := g.player_bank + g.pot, pot := 0 }
  else if compare_hands player_hand ai_hand < 0 then
    { g with ai_bank := g.ai_bank + g.pot, pot := 0 }
  else
    { g with player_bank := g.player_bank + g.pot.fdiv 2,
             ai_bank := g.ai_bank + (g.pot - g.pot.fdiv 2), pot := 0 }

def ValidCard (c : Card) : Prop := 2 ≤ c.1 ∧ c.1 ≤ 14 ∧ c.2 < 4

instance : DecidablePred ValidCard := fun c => by
  unfold ValidCard; infer_instance

/-- Both hands come from one shuffled duplicate-free deck. -/
def ValidDeal (ph ah : List Card) : Prop :=
  ph.length = 5 ∧ ah.length = 5 ∧ (ph ++ ah).Nodup ∧ ∀ c ∈ ph ++ ah, ValidCard c

instance (ph ah : List Card) : Decidable (ValidDeal ph ah) := by
  unfold ValidDeal; infer_instance

/-- Money states reachable in main's session loop. `ante` is the intermediate
state right after new_hand inside play_hand; `hand` is a complete fold-free
hand in which the draw phase replaces no cards (the human enters 0 to keep
all five and ai_choose_discards returns [], so the dealt hands reach the
showdown unchanged). The deal is nondeterministic over valid deals, the
human's tokens and the AI's random draws over arbitrary streams. -/
inductive Reachable : GameState → Prop
  | init : Reachable GameState.init
  | ante {g : GameState} : Reachable g → 0 < g.player_bank → 0 < g.ai_bank →
      Reachable g.new_hand
  | hand {g : GameState} {ph ah : List Card} {i1 i2 i1' i2' : List Int}
      {r1 r2 r1' r2' : List Bool} {s1 s2 : RState} :
      Reachable g → 0 < g.player_bank → 0 < g.ai_bank →
      ValidDeal ph ah →
      betting_round g.new_hand .pre ah i1 r1 = some (true, s1, i1', r1') →
      ai_choose_discards ah = [] →
      betting_round s1.toGame .post ah i2 r2 = some (true, s2, i2', r2') →
      Reachable (showdown ph ah s2.toGame)

/-! ## Sanity checks of the evaluator on concrete hands -/

/-- Concrete evaluator checks, one hand per category (the four-of-a-kind hand
9999-2 giving tie-breakers (9, 2) is the worked example of the spec). -/
theorem evaluate_hand_checks :
    evaluate_hand [(9, 0), (9, 1), (9, 2), (9, 3), (2, 0)] = [7, 9, 2] ∧
    evaluate_hand [(6, 0), (5, 1), (4, 2), (3, 3), (2, 0)] = [4, 6] ∧
    evaluate_hand [(13, 2), (10, 0), (8, 1), (5, 3), (2, 2)] = [0, 13, 10, 8, 5, 2] ∧
    evaluate_hand [(9, 0), (9, 1), (9, 2), (5, 3), (2, 0)] = [3, 9, 5, 2] ∧
    evaluate_hand [(2, 1), (2, 2), (5, 3), (7, 0), (9, 1)] = [1, 2, 9, 7, 5] ∧
    evaluate_hand [(4, 0), (4, 1), (7, 2), (7, 3), (9, 0)] = [2, 7, 4, 9] ∧
    evaluate_hand [(14, 1), (13, 1), (12, 1), (11, 1), (10, 1)] = [8, 14] ∧
    evaluate_hand [(14, 1), (13, 1), (12, 1), (11, 1), (9, 1)] = [5, 14, 13, 12, 11, 9] ∧
    evaluate_hand [(14, 1), (14, 2), (14, 3), (9, 0), (9, 1)] = [6, 14, 9] := by
  decide

/-! ## Transition lemmas for the betting state machine -/

theorem get_positive_int_sound : ∀ (inputs : List Int) (m v : Int) (rest : List Int),
    get_positive_int inputs m = some (v, rest) →
    0 < v ∧ v ≤ m ∧ rest.length < inputs.length := by
  intro inputs
  induction inputs with
  | nil => intro m v rest h; simp [get_positive_int] at h
  | cons a as ih =>
    intro m v rest h
    simp only [get_positive_int] at h
    split_ifs at h with h1 h2
    · obtain ⟨hv, hm, hl⟩ := ih m v rest h
      exact ⟨hv, hm, by simpa using Nat.lt_succ_of_lt hl⟩
    · obtain ⟨hv, hm, hl⟩ := ih m v rest h
      exact ⟨hv, hm, by simpa using Nat.lt_succ_of_lt hl⟩
    · simp only [Option.some.injEq, Prod.mk.injEq] at h
      obtain ⟨hv, hr⟩ := h
      subst hv; subst hr
      exact ⟨by omega, by omega, by simp⟩

/-- Case analysis of a successful player_turn: the five transitions of the
source (call, raise, fold, check — also entered by a bet attempt with an
empty bank — and bet), each with its exact state update. -/
theorem player_turn_spec : ∀ (inputs : List Int) (s : RState) (b : Bool) (s2 : RState)
    (rest : List Int), player_turn s inputs = some (b, s2, rest) →
    rest.length < inputs.length ∧
    ((0 < s.to_call ∧ b = true ∧
        s2 = { s with player_bank := s.player_bank - min s.player_bank s.to_call,
                      pot := s.pot + min s.player_bank s.to_call,
                      to_call := s.to_call - min s.player_bank s.to_call,
                      last_bettor := some .ai }) ∨
     (∃ amt : Int, 0 < s.to_call ∧ s.has_raised = false ∧ 0 < s.player_bank ∧
        0 < amt ∧ amt ≤ s.player_bank ∧ b = true ∧
        s2 = { s with
                player_bank := s.player_bank - min s.player_bank (s.to_call + amt),
                pot := s.pot + min s.player_bank (s.to_call + amt),
                to_call := amt, has_raised := true, raises := s.raises + 1,
                last_bettor := some .player }) ∨
     (0 < s.to_call ∧ b = false ∧
        s2 = { s with ai_bank := s.ai_bank + s.pot, pot := 0 }) ∨
     (¬ 0 < s.to_call ∧ b = true ∧ s2 = { s with last_bettor := some .player }) ∨
     (∃ amt : Int, ¬ 0 < s.to_call ∧ 0 < s.player_bank ∧ 0 < amt ∧
        amt ≤ s.player_bank ∧ b = true ∧
        s2 = { s with player_bank := s.player_bank - amt, pot := s.pot + amt,
                      to_call := amt, last_bettor := some .player })) := by
  intro inputs
  induction inputs with
  | nil => intro s b s2 rest h; simp [player_turn] at h
  | cons choice cin ih =>
    intro s b s2 rest h
    simp only [player_turn] at h
    split_ifs at h with h1 h2 h3 h4 h5 h6 h7 h8
    · -- call
      simp only [Option.some.injEq, Prod.mk.injEq] at h
      obtain ⟨hb, hs, hr⟩ := h
      subst hs; subst hr
      exact ⟨by simp, Or.inl ⟨h1, hb.symm, rfl⟩⟩
    · -- raise attempt with empty bank: re-prompt
      obtain ⟨hl, hcase⟩ := ih s b s2 rest h
      exact ⟨Nat.lt_succ_of_lt hl, hcase⟩
    · -- raise
      cases hget : get_positive_int cin s.player_bank with
      | none => rw [hget] at h; cases h
      | some vp =>
        obtain ⟨amt, rest2⟩ := vp
        rw [hget] at h
        simp only [Option.some.injEq, Prod.mk.injEq] at h
        obtain ⟨hb, hs, hr⟩ := h
        subst hs; subst hr
        obtain ⟨hv, hm, hl⟩ := get_positive_int_sound cin s.player_bank amt rest2 hget
        refine ⟨Nat.lt_succ_of_lt hl, Or.inr (Or.inl ⟨amt, h1, h3.2, by omega, hv, hm,
          hb.symm, rfl⟩)⟩
    · -- fold
      simp only [Option.some.injEq, Prod.mk.injEq] at h
      obtain ⟨hb, hs, hr⟩ := h
      subst hs; subst hr
      exact ⟨by simp, Or.inr (Or.inr (Or.inl ⟨h1, hb.symm, rfl⟩))⟩
    · -- invalid choice facing a bet: re-prompt
      obtain ⟨hl, hcase⟩ := ih s b s2 rest h
      exact ⟨Nat.lt_succ_of_lt hl, hcase⟩
    · -- check
      simp only [Option.some.injEq, Prod.mk.injEq] at h
      obtain ⟨hb, hs, hr⟩ := h
      subst hs; subst hr
      exact ⟨by simp, Or.inr (Or.inr (Or.inr (Or.inl ⟨h1, hb.symm, rfl⟩)))⟩
    · -- bet attempt with empty bank: treated as a check
      simp only [Option.some.injEq, Prod.mk.injEq] at h
      obtain ⟨hb, hs, hr⟩ := h
      subst hs; subst hr
      exact ⟨by simp, Or.inr (Or.inr (Or.inr (Or.inl ⟨h1, hb.symm, rfl⟩)))⟩
    · -- bet
      cases hget : get_positive_int cin s.player_bank with
      | none => rw [hget] at h; cases h
      | some vp =>
        obtain ⟨amt, rest2⟩ := vp
        rw [hget] at h
        simp only [Option.some.injEq, Prod.mk.injEq] at h
        obtain ⟨hb, hs, hr⟩ := h
        subst hs; subst hr
        obtain ⟨hv, hm, hl⟩ := get_positive_int_sound cin s.player_bank amt rest2 hget
        exact ⟨Nat.lt_succ_of_lt hl, Or.inr (Or.inr (Or.inr (Or.inr
          ⟨amt, h1, by omega, hv, hm, hb.symm, rfl⟩)))⟩
    · -- invalid choice with no bet pending: re-prompt
      obtain ⟨hl, hcase⟩ := ih s b s2 rest h
      exact ⟨Nat.lt_succ_of_lt hl, hcase⟩

/-- Case analysis of ai_turn: fold, call (also the default), raise, bet,
check, each with its exact state update. -/
theorem ai_turn_spec (stage : Stage) (ah : List Card) (d : Bool) (s : RState)
    (b : Bool) (s2 : RState) (h : ai_turn stage ah d s = (b, s2)) :
    (0 < s.to_call ∧ b = false ∧
       s2 = { s with player_bank := s.player_bank + s.pot, pot := 0 }) ∨
    (0 < s.to_call ∧ b = true ∧
       s2 = { s with ai_bank := s.ai_bank - min s.ai_bank s.to_call,
                     pot := s.pot + min s.ai_bank s.to_call,
                     to_call := s.to_call - min s.ai_bank s.to_call,
                     last_bettor := some .player }) ∨
    (∃ amt : Int, 0 < s.to_call ∧ s.has_raised = false ∧ s.to_call < s.ai_bank ∧
       b = true ∧
       s2 = { s with
        ai_bank := s.ai_bank -
          min s.ai_bank (s.to_call + min (s.ai_bank - s.to_call) (max 1 amt)),
        pot := s.pot +
          min s.ai_bank (s.to_call + min (s.ai_bank - s.to_call) (max 1 amt)),
        to_call := min (s.ai_bank - s.to_call) (max 1 amt),
        has_raised := true, raises := s.raises + 1, last_bettor := some .ai }) ∨
    (∃ amt : Int, ¬ 0 < s.to_call ∧ 0 < s.ai_bank ∧ b = true ∧
       s2 = { s with ai_bank := s.ai_bank - min s.ai_bank (max 1 amt),
                     pot := s.pot + min s.ai_bank (max 1 amt),
                     to_call := min s.ai_bank (max 1 amt),
                     last_bettor := some .ai }) ∨
    (¬ 0 < s.to_call ∧ b = true ∧ s2 = { s with last_bettor := some .ai }) := by
  simp only [ai_turn] at h
  split_ifs at h with h1 h2 h3 h4 h5
  · obtain ⟨hb, hs⟩ : false = b ∧ _ = s2 := by
      simpa only [Prod.mk.injEq] using h
    subst hs; exact Or.inl ⟨h1, hb.symm, rfl⟩
  · obtain ⟨hb, hs⟩ : true = b ∧ _ = s2 := by
      simpa only [Prod.mk.injEq] using h
    subst hs; exact Or.inr (Or.inl ⟨h1, hb.symm, rfl⟩)
  · obtain ⟨hb, hs⟩ : true = b ∧ _ = s2 := by
      simpa only [Prod.mk.injEq] using h
    subst hs; exact Or.inr (Or.inr (Or.inl ⟨_, h1, h4.2.1, h4.2.2, hb.symm, rfl⟩))
  · obtain ⟨hb, hs⟩ : true = b ∧ _ = s2 := by
      simpa only [Prod.mk.injEq] using h
    subst hs; exact Or.inr (Or.inl ⟨h1, hb.symm, rfl⟩)
  · obtain ⟨hb, hs⟩ : true = b ∧ _ = s2 := by
      simpa only [Prod.mk.injEq] using h
    subst hs; exact Or.inr (Or.inr (Or.inr (Or.inl ⟨_, h1, h5.2, hb.symm, rfl⟩)))
  · obtain ⟨hb, hs⟩ : true = b ∧ _ = s2 := by
      simpa only [Prod.mk.injEq] using h
    subst hs; exact Or.inr (Or.inr (Or.inr (Or.inr ⟨h1, hb.symm, rfl⟩)))

/-- Helper for betting_loop_preserves: the "AI responds, maybe recurse" tail
of a loop iteration preserves P. -/
theorem ai_tail_preserves (P : RState → Prop)
    (ha : ∀ stage ah d s b s2, ai_turn stage ah d s = (b, s2) → P s → P s2)
    (stage : Stage) (ah : List Card) (n : Nat) (pf : Bool)
    (ihn : ∀ (pf : Bool) (s : RState) (inputs : List Int) (rnds : List Bool)
      (b : Bool) (s2 : RState) (i2 : List Int) (r2 : List Bool),
      betting_loop stage ah n pf s inputs rnds = some (b, s2, i2, r2) → P s → P s2)
    (s1 : RState) (in1 : List Int) (rnds : List Bool) (b : Bool) (s2 : RState)
    (i2 : List Int) (r2 : List Bool)
    (h : (match ai_turn stage ah rnds.headI s1 with
          | (false, s2x) => some (false, s2x, in1, rnds.tail)
          | (true, s2x) =>
            if s2x.to_call = 0 then some (true, s2x, in1, rnds.tail)
            else betting_loop stage ah n pf s2x in1 rnds.tail)
         = some (b, s2, i2, r2))
    (hP1 : P s1) : P s2 := by
  split at h
  · rename_i s2x heq
    have hP2 : P s2x := ha _ _ _ _ _ _ heq hP1
    simp only [Option.some.injEq, Prod.mk.injEq] at h
    obtain ⟨-, hs, -⟩ := h
    subst hs; exact hP2
  · rename_i s2x heq
    have hP2 : P s2x := ha _ _ _ _ _ _ heq hP1
    split_ifs at h
    · simp only [Option.some.injEq, Prod.mk.injEq] at h
      obtain ⟨-, hs, -⟩ := h
      subst hs; exact hP2
    · exact ihn _ _ _ _ _ _ _ _ h hP2

/-- Helper for betting_loop_preserves: the "player responds, maybe recurse"
tail of a loop iteration preserves P. -/
theorem player_tail_preserves (P : RState → Prop)
    (hp : ∀ s inputs b s2 rest,
      player_turn s inputs = some (b, s2, rest) → P s → P s2)
    (stage : Stage) (ah : List Card) (n : Nat) (pf : Bool)
    (ihn : ∀ (pf : Bool) (s : RState) (inputs : List Int) (rnds : List Bool)
      (b : Bool) (s2 : RState) (i2 : List Int) (r2 : List Bool),
      betting_loop stage ah n pf s inputs rnds = some (b, s2, i2, r2) → P s → P s2)
    (s1 : RState) (inputs : List Int) (rnds : List Bool) (b : Bool) (s2 : RState)
    (i2 : List Int) (r2 : List Bool)
    (h : (match player_turn s1 inputs with
          | none => none
          | some (false, s2x, in2) => some (false, s2x, in2, rnds.tail)
          | some (true, s2x, in2) =>
            if s2x.to_call = 0 then some (true, s2x, in2, rnds.tail)
            else betting_loop stage ah n pf s2x in2 rnds.tail)
         = some (b, s2, i2, r2))
    (hP1 : P s1) : P s2 := by
  split at h
  · exact absurd h (by simp)
  · rename_i s2x in2 heq
    have hP2 : P s2x := hp _ _ _ _ _ heq hP1
    simp only [Option.some.injEq, Prod.mk.injEq] at h
    obtain ⟨-, hs, -⟩ := h
    subst hs; exact hP2
  · rename_i s2x in2 heq
    have hP2 : P s2x := hp _ _ _ _ _ heq hP1
    split_ifs at h
    · simp only [Option.some.injEq, Prod.mk.injEq] at h
      obtain ⟨-, hs, -⟩ := h
      subst hs; exact hP2
    · exact ihn _ _ _ _ _ _ _ _ h hP2

/-- Any property preserved by every player_turn and every ai_turn step is an
invariant of the betting loop. -/
theorem betting_loop_preserves (P : RState → Prop)
    (hp : ∀ s inputs b s2 rest,
      player_turn s inputs = some (b, s2, rest) → P s → P s2)
    (ha : ∀ stage ah d s b s2, ai_turn stage ah d s = (b, s2) → P s → P s2) :
    ∀ (fuel : Nat) (stage : Stage) (ah : List Card) (pf : Bool) (s : RState)
      (inputs : List Int) (rnds : List Bool) (b : Bool) (s2 : RState)
      (inputs2 : List Int) (rnds2 : List Bool),
      betting_loop stage ah fuel pf s inputs rnds = some (b, s2, inputs2, rnds2) →
      P s → P s2 := by
  intro fuel
  induction fuel with
  | zero =>
    intro stage ah pf s inputs rnds b s2 inputs2 rnds2 h hP
    simp [betting_loop] at h
  | succ n ih =>
    intro stage ah pf s inputs rnds b s2 inputs2 rnds2 h hP
    simp only [betting_loop] at h
    split_ifs at h
    · -- player acts first
      split at h
      · exact absurd h (by simp)
      · rename_i s1 in1 heq
        have hP1 : P s1 := hp _ _ _ _ _ heq hP
        simp only [Option.some.injEq, Prod.mk.injEq] at h
        obtain ⟨-, hs, -⟩ := h
        subst hs; exact hP1
      · rename_i s1 in1 heq
        have hP1 : P s1 := hp _ _ _ _ _ heq hP
        split_ifs at h
        · exact ai_tail_preserves P ha stage ah n pf
            (fun pf => ih stage ah pf) s1 in1 rnds b s2 inputs2 rnds2 h hP1
        · exact ai_tail_preserves P ha stage ah n true
            (fun pf => ih stage ah pf) s1 in1 rnds b s2 inputs2 rnds2 h hP1
    · -- AI acts first
      split at h
      · rename_i s1 heq
        have hP1 : P s1 := ha _ _ _ _ _ _ heq hP
        simp only [Option.some.injEq, Prod.mk.injEq] at h
        obtain ⟨-, hs, -⟩ := h
        subst hs; exact hP1
      · rename_i s1 heq
        have hP1 : P s1 := ha _ _ _ _ _ _ heq hP
        split_ifs at h
        · exact player_tail_preserves P hp stage ah n pf
            (fun pf => ih stage ah pf) s1 inputs rnds b s2 inputs2 rnds2 h hP1
        · exact player_tail_preserves P hp stage ah n pf
            (fun pf => ih stage ah pf) s1 inputs rnds b s2 inputs2 rnds2 h hP1

theorem player_turn_keeps_total (T : Int) :
    ∀ (s : RState) (inputs : List Int) (b : Bool) (s2 : RState) (rest : List Int),
    player_turn s inputs = some (b, s2, rest) →
    s.player_bank + s.ai_bank + s.pot = T →
    s2.player_bank + s2.ai_bank + s2.pot = T := by
  intro s inputs b s2 rest h hT
  rcases (player_turn_spec inputs s b s2 rest h).2 with
    ⟨-, -, hs⟩ | ⟨amt, -, -, -, hv, hm, -, hs⟩ | ⟨-, -, hs⟩ | ⟨-, -, hs⟩ |
    ⟨amt, -, -, hv, hm, -, hs⟩ <;> subst hs <;> dsimp only <;> omega

theorem ai_turn_keeps_total (T : Int) :
    ∀ (stage : Stage) (ah : List Card) (d : Bool) (s : RState) (b : Bool) (s2 : RState),
    ai_turn stage ah d s = (b, s2) →
    s.player_bank + s.ai_bank + s.pot = T →
    s2.player_bank + s2.ai_bank + s2.pot = T := by
  intro stage ah d s b s2 h hT
  rcases ai_turn_spec stage ah d s b s2 h with
    ⟨-, -, hs⟩ | ⟨-, -, hs⟩ | ⟨amt, -, -, -, -, hs⟩ | ⟨amt, -, -, -, hs⟩ |
    ⟨-, -, hs⟩ <;> subst hs <;> dsimp only <;> omega

theorem player_turn_keeps_nonneg :
    ∀ (s : RState) (inputs : List Int) (b : Bool) (s2 : RState) (rest : List Int),
    player_turn s inputs = some (b, s2, rest) →
    0 ≤ s.player_bank ∧ 0 ≤ s.ai_bank ∧ 0 ≤ s.pot ∧ 0 ≤ s.to_call →
    0 ≤ s2.player_bank ∧ 0 ≤ s2.ai_bank ∧ 0 ≤ s2.pot ∧ 0 ≤ s2.to_call := by
  intro s inputs b s2 rest h hP
  obtain ⟨h1, h2, h3, h4⟩ := hP
  rcases (player_turn_spec inputs s b s2 rest h).2 with
    ⟨htc, -, hs⟩ | ⟨amt, htc, -, hpb, hv, hm, -, hs⟩ | ⟨-, -, hs⟩ | ⟨-, -, hs⟩ |
    ⟨amt, -, hpb, hv, hm, -, hs⟩ <;> subst hs <;> dsimp only <;> omega

theorem ai_turn_keeps_nonneg :
    ∀ (stage : Stage) (ah : List Card) (d : Bool) (s : RState) (b : Bool) (s2 : RState),
    ai_turn stage ah d s = (b, s2) →
    0 ≤ s.player_bank ∧ 0 ≤ s.ai_bank ∧ 0 ≤ s.pot ∧ 0 ≤ s.to_call →
    0 ≤ s2.player_bank ∧ 0 ≤ s2.ai_bank ∧ 0 ≤ s2.pot ∧ 0 ≤ s2.to_call := by
  intro stage ah d s b s2 h hP
  obtain ⟨h1, h2, h3, h4⟩ := hP
  rcases ai_turn_spec stage ah d s b s2 h with
    ⟨htc, -, hs⟩ | ⟨htc, -, hs⟩ | ⟨amt, htc, -, hab, -, hs⟩ | ⟨amt, htc, hab, -, hs⟩ |
    ⟨-, -, hs⟩ <;> subst hs <;> dsimp only <;> omega

theorem player_turn_keeps_raises :
    ∀ (s : RState) (inputs : List Int) (b : Bool) (s2 : RState) (rest : List Int),
    player_turn s inputs = some (b, s2, rest) →
    s.raises ≤ 1 ∧ (s.has_raised = false → s.raises = 0) →
    s2.raises ≤ 1 ∧ (s2.has_raised = false → s2.raises = 0) := by
  intro s inputs b s2 rest h hP
  rcases (player_turn_spec inputs s b s2 rest h).2 with
    ⟨-, -, hs⟩ | ⟨amt, -, hr, -, -, -, -, hs⟩ | ⟨-, -, hs⟩ | ⟨-, -, hs⟩ |
    ⟨amt, -, -, -, -, -, hs⟩ <;> subst hs <;> dsimp only
  · exact hP
  · have h0 := hP.2 hr
    exact ⟨by omega, by simp⟩
  · exact hP
  · exact hP
  · exact hP

theorem ai_turn_keeps_raises :
    ∀ (stage : Stage) (ah : List Card) (d : Bool) (s : RState) (b : Bool) (s2 : RState),
    ai_turn stage ah d s = (b, s2) →
    s.raises ≤ 1 ∧ (s.has_raised = false → s.raises = 0) →
    s2.raises ≤ 1 ∧ (s2.has_raised = false → s2.raises = 0) := by
  intro stage ah d s b s2 h hP
  rcases ai_turn_spec stage ah d s b s2 h with
    ⟨-, -, hs⟩ | ⟨-, -, hs⟩ | ⟨amt, -, hr, -, -, hs⟩ | ⟨amt, -, -, -, hs⟩ |
    ⟨-, -, hs⟩ <;> subst hs <;> dsimp only
  · exact hP
  · exact hP
  · have h0 := hP.2 hr
    exact ⟨by omega, by simp⟩
  · exact hP
  · exact hP

/-! ## Claim theorems -/

/-- Claim C1 (code_bug evidence). In the spec scenario (banks 50/50, pot 10,
pre-draw, opponent holding trips), after the human checks, the opponent bets
2 and the human calls 2 (pot
reaches 14), the claim says the round is complete with no further action.
The code instead hands the turn back to the opponent: with only the two
tokens [check, call] the round is still waiting for more input (result
none), and if the human's next token is a fold we see that the opponent had
bet again (3 more chips: the folded-away pot is 17, not 14). -/
theorem C1_code_divergence :
    betting_round ⟨50, 50, 10⟩ .pre [(9, 0), (9, 1), (9, 2), (5, 3), (2, 0)]
      [1, 1] [] = none ∧
    betting_round ⟨50, 50, 10⟩ .pre [(9, 0), (9, 1), (9, 2), (5, 3), (2, 0)]
      [1, 1, 3] [] = some (false, ⟨48, 62, 0, 3, some .ai, false, 0⟩, [], []) :=
  ⟨by decide, by decide⟩

/-- Claim C3: for every valid 5-card hand the evaluator returns one of the 9
categories 0..8, and (priority order) a hand that is both a straight and a
flush is classified 8 (Straight Flush), never 5 (Flush). -/
theorem C3_evaluate_range_and_priority (hand : List Card) (h5 : hand.length = 5) :
    (0 ≤ (evaluate_hand hand).headI ∧ (evaluate_hand hand).headI ≤ 8) ∧
    ((_is_straight (uniqueRanks hand)).1 = true → isFlush hand = true →
      (evaluate_hand hand).headI = 8) := by
  constructor
  · unfold evaluate_hand
    split_ifs <;> simp
  · intro hs hf
    unfold evaluate_hand
    rw [if_pos ⟨hs, hf⟩]
    rfl

/-- Witness for C3 at a concrete straight flush. -/
theorem C3_witness :
    (evaluate_hand [(14, 1), (13, 1), (12, 1), (11, 1), (10, 1)]).headI = 8 := by
  obtain ⟨-, h⟩ :=
    C3_evaluate_range_and_priority [(14, 1), (13, 1), (12, 1), (11, 1), (10, 1)]
      (by decide)
  exact h (by decide) (by decide)

/-- Claim C7 (counterexample): the claim's decision table says a
Trips-or-better opponent raises whenever can_raise holds and its bank
strictly exceeds to_call; the code additionally requires pot ≥ 2, so at
to_call = 1, bank = 50, pot = 1 it calls instead. -/
theorem C7_counterexample :
    ¬ (∀ (stage : Stage) (hand : List Card) (can_raise : Bool)
        (to_call ai_bank pot : Int) (spec_draw : Bool), 0 < to_call →
        3 ≤ (evaluate_hand hand).headI →
        (ai_bet_decision stage hand can_raise to_call ai_bank pot spec_draw).1
          = if can_raise = true ∧ to_call < ai_bank then .raise else .call) := by
  intro h
  have h2 := h .pre [(9, 0), (9, 1), (9, 2), (5, 3), (2, 0)] true 1 50 1 false
    (by decide) (by decide)
  exact absurd h2 (by decide)

/-- Claim C7 as amended: the decision table facing a bet, with the raise case
additionally requiring pot ≥ 2 as the code does. -/
theorem C7_decision_table (stage : Stage) (hand : List Card) (can_raise : Bool)
    (to_call ai_bank pot : Int) (spec_draw : Bool) (htc : 0 < to_call) :
    (3 ≤ (evaluate_hand hand).headI →
      (ai_bet_decision stage hand can_raise to_call ai_bank pot spec_draw).1
        = if can_raise = true ∧ to_call < ai_bank ∧ 2 ≤ pot then .raise else .call) ∧
    ((evaluate_hand hand).headI = 2 →
      (ai_bet_decision stage hand can_raise to_call ai_bank pot spec_draw).1
        = if to_call ≤ max 2 (pot.fdiv 3) ∨ to_call ≤ ai_bank.fdiv 6 then .call
          else .fold) ∧
    ((evaluate_hand hand).headI = 1 →
      (ai_bet_decision stage hand can_raise to_call ai_bank pot spec_draw).1
        = if to_call ≤ max 1 (pot.fdiv 5) then .call else .fold) ∧
    ((evaluate_hand hand).headI = 0 →
      (ai_bet_decision stage hand can_raise to_call ai_bank pot spec_draw).1
        = if to_call ≤ 1 ∧ spec_draw = true then .call else .fold) := by
  refine ⟨fun h3 => ?_, fun h2 => ?_, fun h1 => ?_, fun h0 => ?_⟩ <;>
    simp only [ai_bet_decision]
  · rw [if_pos htc, if_pos h3]
    split_ifs <;> rfl
  · rw [if_pos htc, if_neg (by omega), if_pos h2]
    split_ifs <;> rfl
  · rw [if_pos htc, if_neg (by omega), if_neg (by omega), if_pos h1]
    split_ifs <;> rfl
  · rw [if_pos htc, if_neg (by omega), if_neg (by omega), if_neg (by omega)]
    split_ifs <;> rfl

/-- Witness for C7 at a concrete trips hand facing a bet of 2 with pot 10. -/
theorem C7_witness :
    (ai_bet_decision .pre [(9, 0), (9, 1), (9, 2), (5, 3), (2, 0)] true 2 50 10
      false).1 = .raise := by
  have h :=
    (C7_decision_table .pre [(9, 0), (9, 1), (9, 2), (5, 3), (2, 0)] true 2 50 10
      false (by decide)).1 (by decide)
  exact h.trans (by decide)

/-! ## Rank-list lemmas for the evaluator claims -/

theorem mem_uniqueRanks (hand : List Card) (r : Int) :
    r ∈ uniqueRanks hand ↔ r ∈ hand.map card_rank := by
  unfold uniqueRanks ranksDesc sortDesc
  rw [List.mem_insertionSort, List.mem_dedup, List.mem_insertionSort]

theorem findStraightHigh_some : ∀ (l : List Int) (h : Int),
    findStraightHigh l = some h → ∃ x ∈ l, x + 4 = h := by
  intro l
  induction l with
  | nil => intro h hf; simp [findStraightHigh] at hf
  | cons a rest ih =>
    intro h hf
    simp only [findStraightHigh] at hf
    split_ifs at hf with h1 h2
    · simp only [Option.some.injEq] at hf
      subst hf
      exact ⟨rest.get ⟨3, by omega⟩,
        List.mem_cons_of_mem a (List.get_mem rest 3 (by omega)), by omega⟩
    · obtain ⟨x, hx, he⟩ := ih h hf
      exact ⟨x, List.mem_cons_of_mem a hx, he⟩

/-- If _is_straight reports a straight with high card 5 on the unique ranks
of a hand whose ranks are all ≥ 2, it came from the wheel branch, so all of
14, 5, 4, 3, 2 occur among the hand's ranks. -/
theorem straight_high_five (hand : List Card)
    (hv : ∀ c ∈ hand, 2 ≤ card_rank c)
    (ht : (_is_straight (uniqueRanks hand)).1 = true)
    (h5 : (_is_straight (uniqueRanks hand)).2 = 5) :
    ∀ r ∈ ([14, 5, 4, 3, 2] : List Int), r ∈ hand.map card_rank := by
  unfold _is_straight at ht h5
  by_cases hlen : (uniqueRanks hand).length < 5
  · rw [if_pos hlen] at ht
    simp at ht
  · rw [if_neg hlen] at ht h5
    cases hfs : findStraightHigh (uniqueRanks hand) with
    | some hi =>
      rw [hfs] at h5
      have h5x : hi = 5 := h5
      obtain ⟨x, hx, hxe⟩ := findStraightHigh_some _ _ hfs
      rw [mem_uniqueRanks] at hx
      obtain ⟨c, hc, hcr⟩ := List.mem_map.1 hx
      have := hv c hc
      omega
    | none =>
      rw [hfs] at ht
      have ht2 : (if ([14, 5, 4, 3, 2].all fun r => (uniqueRanks hand).contains r)
          then ((true : Bool), (5 : Int)) else (false, 0)).1 = true := ht
      split_ifs at ht2 with hwheel
      · intro r hr
        rw [← mem_uniqueRanks]
        have := List.all_eq_true.1 hwheel r hr
        simpa [List.elem_iff] using this

theorem mem_ranksDesc (hand : List Card) (r : Int) :
    r ∈ ranksDesc hand ↔ r ∈ hand.map card_rank := by
  unfold ranksDesc sortDesc
  rw [List.mem_insertionSort]

theorem count_ranksDesc (hand : List Card) (r : Int) :
    (ranksDesc hand).count r = (hand.map card_rank).count r :=
  (List.perm_insertionSort _ _).count_eq r

theorem length_ranksDesc (hand : List Card) :
    (ranksDesc hand).length = hand.length := by
  unfold ranksDesc sortDesc
  rw [List.length_insertionSort, List.length_map]

/-- Membership in the sorted count groups: (c, q) is a group iff q is one of
the hand's ranks and c its multiplicity. -/
theorem mem_groupsOf (hand : List Card) (c : Nat) (q : Int) :
    (c, q) ∈ groupsOf hand ↔
      q ∈ ranksDesc hand ∧ c = (ranksDesc hand).count q := by
  unfold groupsOf sortPairsDesc
  rw [List.mem_insertionSort, List.mem_map]
  constructor
  · rintro ⟨r, hr, heq⟩
    rw [Prod.mk.injEq] at heq
    obtain ⟨hc, hq⟩ := heq
    subst hq
    exact ⟨List.mem_dedup.1 hr, hc.symm⟩
  · rintro ⟨hq, hc⟩
    subst hc
    exact ⟨q, List.mem_dedup.2 hq, rfl⟩

/-- The group multiplicities sum to the hand size. -/
theorem groupsOf_sum (hand : List Card) :
    ((groupsOf hand).map Prod.fst).sum = hand.length := by
  have hperm : List.Perm ((groupsOf hand).map Prod.fst)
      ((((ranksDesc hand).dedup).map
        fun r => ((ranksDesc hand).count r, r)).map Prod.fst) :=
    (List.perm_insertionSort _ _).map Prod.fst
  rw [hperm.sum_eq, List.map_map]
  have h2 : (Prod.fst ∘ fun r => ((ranksDesc hand).count r, r))
      = fun r => (ranksDesc hand).count r := rfl
  rw [h2, List.sum_map_count_dedup_eq_length, length_ranksDesc]

/-- Inverting the evaluator at category One Pair: the top group multiplicity
is 2 and the second one is not 2. -/
theorem onePair_conditions (hand : List Card)
    (h1 : (evaluate_hand hand).headI = 1) :
    (countsSorted hand).headI = 2 ∧ (countsSorted hand).getD 1 0 ≠ 2 := by
  unfold evaluate_hand at h1
  split_ifs at h1 with hc1 hc2 hc3 hc4 hc5 hc6 hc7 hc8 <;>
    simp [List.headI] at h1
  exact ⟨hc8, fun hgd => hc7 ⟨hc8, hgd⟩⟩

/-- A One Pair hand has exactly one rank of multiplicity 2, every other rank
occurring once. -/
theorem onePair_profile (hand : List Card) (h5 : hand.length = 5)
    (h1 : (evaluate_hand hand).headI = 1) :
    ∃ p : Int, (hand.map card_rank).count p = 2 ∧
      ∀ r ∈ hand.map card_rank, r ≠ p → (hand.map card_rank).count r = 1 := by
  obtain ⟨hh, hgd⟩ := onePair_conditions hand h1
  have hsum := groupsOf_sum hand
  have hsorted : List.Pairwise pairDescLe (groupsOf hand) :=
    List.sorted_insertionSort _ _
  have hbound : ∀ x ∈ groupsOf hand, 1 ≤ x.1 := by
    intro x hx
    obtain ⟨hq, hc⟩ := (mem_groupsOf hand x.1 x.2).1 (by simpa using hx)
    have hpos : 0 < (ranksDesc hand).count x.2 := List.count_pos_iff.2 hq
    omega
  cases hG : groupsOf hand with
  | nil =>
    unfold countsSorted at hh
    rw [hG] at hh
    simp at hh
  | cons g0 t =>
    have hg0 : g0.1 = 2 := by
      unfold countsSorted at hh
      rw [hG] at hh
      simpa using hh
    cases t with
    | nil =>
      rw [hG] at hsum
      rw [h5] at hsum
      simp at hsum
      omega
    | cons g1 t2 =>
      have hg1ne : g1.1 ≠ 2 := by
        unfold countsSorted at hgd
        rw [hG] at hgd
        simpa using hgd
      rw [hG] at hsorted
      have hpair01 : pairDescLe g0 g1 :=
        (List.pairwise_cons.1 hsorted).1 g1 (by simp)
      have hpair1t : ∀ x ∈ t2, pairDescLe g1 x :=
        fun x hx => (List.pairwise_cons.1 (List.pairwise_cons.1 hsorted).2).1 x hx
      have hg1le : g1.1 ≤ g0.1 := by
        unfold pairDescLe at hpair01
        omega
      have hg1b : 1 ≤ g1.1 := hbound g1 (by rw [hG]; simp)
      have hg1 : g1.1 = 1 := by omega
      have ht2 : ∀ x ∈ t2, x.1 = 1 := by
        intro x hx
        have hle := hpair1t x hx
        have hxb := hbound x (by
          rw [hG]
          exact List.mem_cons_of_mem _ (List.mem_cons_of_mem _ hx))
        unfold pairDescLe at hle
        omega
      refine ⟨g0.2, ?_, ?_⟩
      · have hg0mem : (g0.1, g0.2) ∈ groupsOf hand := by rw [hG]; simp
        obtain ⟨hq, hc⟩ := (mem_groupsOf hand g0.1 g0.2).1 hg0mem
        rw [← count_ranksDesc]
        omega
      · intro r hr hrp
        have hrR : r ∈ ranksDesc hand := (mem_ranksDesc hand r).2 hr
        have hrmem : ((ranksDesc hand).count r, r) ∈ groupsOf hand :=
          (mem_groupsOf hand _ r).2 ⟨hrR, rfl⟩
        rw [hG] at hrmem
        rw [← count_ranksDesc]
        rcases List.mem_cons.1 hrmem with heq | hrmem2
        · exact absurd (by simpa using congrArg Prod.snd heq) hrp
        · rcases List.mem_cons.1 hrmem2 with heq | hin
          · have hfst := congrArg Prod.fst heq
            simp at hfst
            omega
          · have hfst := ht2 _ hin
            simp at hfst
            omega

/-- _find_pair_rank returns the unique pair rank of a One Pair profile. -/
theorem find_pair_rank_eq (l : List Int) (p : Int) (hp : l.count p = 2)
    (huniq : ∀ r ∈ l, r ≠ p → l.count r = 1) : _find_pair_rank l = p := by
  unfold _find_pair_rank
  cases hf : l.find? (fun r => l.count r == 2) with
  | none =>
    have hmem : p ∈ l := List.count_pos_iff.1 (by omega)
    have := List.find?_eq_none.1 hf p hmem
    simp [hp] at this
  | some q =>
    have hq2 : l.count q = 2 := by simpa using List.find?_some hf
    have hqm : q ∈ l := List.mem_of_find?_eq_some hf
    by_cases hqp : q = p
    · simpa using hqp
    · have := huniq q hqm hqp
      omega

/-- The One Pair branch of ai_choose_discards, stated with "non-paired card"
spelled as "rank occurring exactly once". -/
theorem discards_onePair (hand : List Card) (h5 : hand.length = 5)
    (h1 : (evaluate_hand hand).headI = 1) :
    ai_choose_discards hand =
      ((hand.map card_rank).enum.filter
        (fun q => decide ((hand.map card_rank).count q.2 = 1))).map Prod.fst := by
  obtain ⟨p, hp2, huniq⟩ := onePair_profile hand h5 h1
  have hfp : _find_pair_rank (hand.map card_rank) = p :=
    find_pair_rank_eq _ p hp2 huniq
  simp only [ai_choose_discards]
  rw [h1, if_neg (by norm_num), if_pos rfl, hfp]
  congr 1
  apply List.filter_congr
  intro q hq
  have hqmem : q.2 ∈ hand.map card_rank := by
    have := List.mem_map_of_mem Prod.snd hq
    rwa [List.enum_map_snd] at this
  by_cases hqp : q.2 = p
  · simp [hqp, hp2]
  · simp [hqp, huniq q.2 hqmem hqp]

/-- The no-pair branch of ai_choose_discards: keep the first two Queen-or-
higher cards, discard the rest, truncated to three discards. -/
theorem discards_noPair (hand : List Card) (h5 : hand.length = 5)
    (hge : ¬ 2 ≤ (evaluate_hand hand).headI)
    (he1 : ¬ (evaluate_hand hand).headI = 1) :
    ai_choose_discards hand =
      ((List.range 5).filter (fun i =>
        decide (i ∉ (((hand.map card_rank).enum.filter
          (fun q => decide (12 ≤ q.2))).map Prod.fst).take 2))).take 3 := by
  have htake : ∀ (l : List Nat) (n : Nat),
      (if n < l.length then l.take n else l) = l.take n := by
    intro l n
    split_ifs with h
    · rfl
    · exact (List.take_of_length_le (by omega)).symm
  simp only [ai_choose_discards]
  rw [if_neg hge, if_neg he1, h5, htake, htake]

/-- Claim C8: the discard policy. Two-Pair-or-better discards nothing; One
Pair discards exactly the indices of the cards whose rank occurs once; with
no pair the kept cards are the first two of rank Queen (12) or higher and
the rest are discarded, truncated to three discards; and in every case at
most 3 cards — never all 5 — are discarded. -/
theorem C8_discard_policy (hand : List Card) (h5 : hand.length = 5) :
    (2 ≤ (evaluate_hand hand).headI → ai_choose_discards hand = []) ∧
    ((evaluate_hand hand).headI = 1 →
      ai_choose_discards hand =
        ((hand.map card_rank).enum.filter
          (fun q => decide ((hand.map card_rank).count q.2 = 1))).map Prod.fst) ∧
    ((evaluate_hand hand).headI = 0 →
      ai_choose_discards hand =
        ((List.range 5).filter (fun i =>
          decide (i ∉ (((hand.map card_rank).enum.filter
            (fun q => decide (12 ≤ q.2))).map Prod.fst).take 2))).take 3) ∧
    (ai_choose_discards hand).length ≤ 3 ∧
    ai_choose_discards hand ≠ List.range 5 := by
  have hlen : (ai_choose_discards hand).length ≤ 3 := by
    by_cases hge : 2 ≤ (evaluate_hand hand).headI
    · have : ai_choose_discards hand = [] := by
        simp only [ai_choose_discards]
        rw [if_pos hge]
      simp [this]
    · by_cases he1 : (evaluate_hand hand).headI = 1
      · obtain ⟨p, hp2, huniq⟩ := onePair_profile hand h5 he1
        rw [discards_onePair hand h5 he1, List.length_map,
          ← List.countP_eq_length_filter]
        have hswap : ((hand.map card_rank).enum).countP
            (fun q => decide ((hand.map card_rank).count q.2 = 1))
            = (hand.map card_rank).countP
              (fun r => decide ((hand.map card_rank).count r = 1)) := by
          have hm := List.countP_map
            (fun r => decide ((hand.map card_rank).count r = 1)) Prod.snd
            ((hand.map card_rank).enum)
          rw [List.enum_map_snd] at hm
          simpa [Function.comp] using hm.symm
        rw [hswap]
        have hsplit := List.length_eq_countP_add_countP
          (fun r => decide ((hand.map card_rank).count r = 1))
          (hand.map card_rank)
        have hmono : (hand.map card_rank).countP (fun r => r == p) ≤
            (hand.map card_rank).countP
              (fun a => decide (¬ (decide ((hand.map card_rank).count a = 1)) = true)) := by
          apply List.countP_mono_left
          intro a ha hap
          have : a = p := by simpa using hap
          subst this
          simp [hp2]
        have hcp : (hand.map card_rank).countP (fun r => r == p) = 2 := hp2
        rw [List.length_map, h5] at hsplit
        omega
      · rw [discards_noPair hand h5 hge he1]
        simp [List.length_take]
  refine ⟨?_, fun h1 => discards_onePair hand h5 h1,
    fun h0 => discards_noPair hand h5 (by omega) (by omega), hlen, ?_⟩
  · intro hge
    simp only [ai_choose_discards]
    rw [if_pos hge]
  · intro hcontra
    have := congrArg List.length hcontra
    rw [List.length_range] at this
    omega

/-- Witness for C8 at a concrete One Pair hand: the three non-paired cards
(indices 2, 3, 4) are discarded. -/
theorem C8_witness :
    ai_choose_discards [(2, 1), (2, 2), (5, 3), (7, 0), (9, 1)] = [2, 3, 4] := by
  have h := (C8_discard_policy [(2, 1), (2, 2), (5, 3), (7, 0), (9, 1)]
    (by decide)).2.1 (by decide)
  exact h.trans (by decide)

/-- Claim C4: a non-flush hand whose rank multiset is the wheel ranks
evaluates to category Straight with tie-breaker 5; the wheel compares
strictly below a 6-high straight; and (ace-low uniqueness) any hand of valid
cards evaluating to a straight or straight flush with high card 5 contains
all of the wheel ranks 14, 5, 4, 3, 2. -/
theorem C4_wheel_straight :
    (∀ hand : List Card, (hand.map card_rank).Perm [14, 5, 4, 3, 2] →
      isFlush hand = false → evaluate_hand hand = [4, 5]) ∧
    compare_hands [(14, 0), (5, 1), (4, 2), (3, 3), (2, 0)]
      [(6, 0), (5, 1), (4, 2), (3, 3), (2, 1)] = -1 ∧
    (∀ hand : List Card, (∀ c ∈ hand, ValidCard c) →
      (evaluate_hand hand = [4, 5] ∨ evaluate_hand hand = [8, 5]) →
      ∀ r ∈ ([14, 5, 4, 3, 2] : List Int), r ∈ hand.map card_rank) := by
  refine ⟨fun hand hp hf => ?_, by decide, fun hand hv he => ?_⟩
  · have hranks : ranksDesc hand = [14, 5, 4, 3, 2] := by
      have hperm : List.Perm (ranksDesc hand) [14, 5, 4, 3, 2] :=
        (List.perm_insertionSort _ _).trans hp
      exact List.eq_of_perm_of_sorted hperm
        (List.sorted_insertionSort _ _) (by decide)
    unfold evaluate_hand countsSorted groupsOf uniqueRanks
    rw [hranks, hf]
    decide
  · have hv2 : ∀ c ∈ hand, 2 ≤ card_rank c := fun c hc => (hv c hc).1
    rcases he with he | he
    · unfold evaluate_hand at he
      split_ifs at he with h1 h2 h3 h4 h5 h6 h7 h8 <;>
        norm_num [List.cons.injEq] at he
      exact straight_high_five hand hv2 h5 he
    · unfold evaluate_hand at he
      split_ifs at he with h1 h2 h3 h4 h5 h6 h7 h8 <;>
        norm_num [List.cons.injEq] at he
      exact straight_high_five hand hv2 h1.1 he

/-- Witness for C4 at the concrete wheel hand. -/
theorem C4_witness :
    evaluate_hand [(14, 0), (5, 1), (4, 2), (3, 3), (2, 0)] = [4, 5] :=
  C4_wheel_straight.1 [(14, 0), (5, 1), (4, 2), (3, 3), (2, 0)] (by decide) (by decide)

/-- Claim C5: every betting round conserves player_bank + ai_bank + pot,
including rounds ending in a fold (the pot is paid into the winner's bank). -/
theorem C5_conservation (g : GameState) (stage : Stage) (ah : List Card)
    (inputs : List Int) (rnds : List Bool) (b : Bool) (s2 : RState)
    (inputs2 : List Int) (rnds2 : List Bool)
    (h : betting_round g stage ah inputs rnds = some (b, s2, inputs2, rnds2)) :
    s2.player_bank + s2.ai_bank + s2.pot = g.player_bank + g.ai_bank + g.pot := by
  unfold betting_round at h
  exact betting_loop_preserves
    (fun s => s.player_bank + s.ai_bank + s.pot = g.player_bank + g.ai_bank + g.pot)
    (player_turn_keeps_total _) (ai_turn_keeps_total _)
    _ _ _ _ _ _ _ _ _ _ _ h rfl

/-- Witness for C5: a concrete post-draw round (AI bets 2, player calls). -/
theorem C5_witness :
    betting_round ⟨45, 45, 10⟩ .post [(4, 0), (4, 1), (7, 2), (7, 3), (9, 0)] [1] []
      = some (true, ⟨43, 43, 14, 0, some .ai, false, 0⟩, [], []) ∧
    (43 : Int) + 43 + 14 = 45 + 45 + 10 := by
  refine ⟨by decide, ?_⟩
  exact C5_conservation ⟨45, 45, 10⟩ .post [(4, 0), (4, 1), (7, 2), (7, 3), (9, 0)]
    [1] [] true ⟨43, 43, 14, 0, some .ai, false, 0⟩ [] [] (by decide)

/-- Claim C6: at most one raise happens in any betting round (the ghost
counter of executed raise transitions ends at most 1), and a human attempt
at a second raise (choice 2 when has_raised already holds, facing a bet) is
rejected: the turn re-prompts on the remaining input with the state
unchanged. -/
theorem C6_at_most_one_raise :
    (∀ (g : GameState) (stage : Stage) (ah : List Card) (inputs : List Int)
      (rnds : List Bool) (b : Bool) (s2 : RState) (i2 : List Int) (r2 : List Bool),
      betting_round g stage ah inputs rnds = some (b, s2, i2, r2) →
      s2.raises ≤ 1) ∧
    (∀ (s : RState) (rest : List Int), s.has_raised = true → 0 < s.to_call →
      player_turn s (2 :: rest) = player_turn s rest) := by
  constructor
  · intro g stage ah inputs rnds b s2 i2 r2 h
    unfold betting_round at h
    exact (betting_loop_preserves
      (fun s => s.raises ≤ 1 ∧ (s.has_raised = false → s.raises = 0))
      player_turn_keeps_raises ai_turn_keeps_raises
      _ _ _ _ _ _ _ _ _ _ _ h ⟨by simp [initRound], fun _ => rfl⟩).1
  · intro s rest hhr htc
    simp only [player_turn]
    rw [if_pos htc, if_neg (by norm_num), if_neg (by simp [hhr]),
      if_neg (by norm_num)]

/-- Witness for C6: the concrete pre-draw run of C1's scenario ends with 0
raises, and a second-raise attempt in a raised state is skipped verbatim. -/
theorem C6_witness :
    ((⟨48, 62, 0, 3, some .ai, false, 0⟩ : RState).raises ≤ 1) ∧
    player_turn ⟨50, 50, 10, 2, some .ai, true, 1⟩ [2, 3]
      = player_turn ⟨50, 50, 10, 2, some .ai, true, 1⟩ [3] := by
  constructor
  · exact C6_at_most_one_raise.1 ⟨50, 50, 10⟩ .pre
      [(9, 0), (9, 1), (9, 2), (5, 3), (2, 0)] [1, 1, 3] [] false
      ⟨48, 62, 0, 3, some .ai, false, 0⟩ [] [] (by decide)
  · exact C6_at_most_one_raise.2 ⟨50, 50, 10, 2, some .ai, true, 1⟩ [3] rfl
      (by norm_num)

/-- Claim C2 as amended: betting rounds never drive a nonnegative bank
negative (all payments are clamped to the payer's bank), but new_hand's
unguarded 5-chip ante takes a bank below zero exactly when it is below 5 on
entry. -/
theorem C2_bank_nonneg_amended :
    (∀ (g : GameState) (stage : Stage) (ah : List Card) (inputs : List Int)
      (rnds : List Bool) (b : Bool) (s2 : RState) (i2 : List Int) (r2 : List Bool),
      betting_round g stage ah inputs rnds = some (b, s2, i2, r2) →
      0 ≤ g.player_bank → 0 ≤ g.ai_bank → 0 ≤ g.pot →
      0 ≤ s2.player_bank ∧ 0 ≤ s2.ai_bank ∧ 0 ≤ s2.pot) ∧
    (∀ g : GameState, (GameState.new_hand g).player_bank < 0 ↔ g.player_bank < 5) := by
  constructor
  · intro g stage ah inputs rnds b s2 i2 r2 h hpb hab hpot
    unfold betting_round at h
    have hres := betting_loop_preserves
      (fun s => 0 ≤ s.player_bank ∧ 0 ≤ s.ai_bank ∧ 0 ≤ s.pot ∧ 0 ≤ s.to_call)
      player_turn_keeps_nonneg ai_turn_keeps_nonneg
      _ _ _ _ _ _ _ _ _ _ _ h ⟨hpb, hab, hpot, le_refl 0⟩
    exact ⟨hres.1, hres.2.1, hres.2.2.1⟩
  · intro g
    simp only [GameState.new_hand]
    omega

/-- Witness for C2's amended theorem at a concrete round. -/
theorem C2_witness :
    ((0 : Int) ≤ 43 ∧ (0 : Int) ≤ 43 ∧ (0 : Int) ≤ 14) ∧
    ((GameState.new_hand ⟨1, 99, 0⟩).player_bank < 0 ↔ (1 : Int) < 5) := by
  constructor
  · exact C2_bank_nonneg_amended.1 ⟨45, 45, 10⟩ .post
      [(4, 0), (4, 1), (7, 2), (7, 3), (9, 0)] [1] [] true
      ⟨43, 43, 14, 0, some .ai, false, 0⟩ [] [] (by decide)
      (by norm_num) (by norm_num) (by norm_num)
  · exact C2_bank_nonneg_amended.2 ⟨1, 99, 0⟩

/-- Claim C2 (counterexample): a session state with a negative bank is
reachable. Seven identical hands — player checks pre-draw, the two-pair AI
checks back, nobody discards, the AI bets 2 post-draw, the player calls, the
AI wins the 14-chip showdown — cost the player 7 chips each, leaving banks
(1, 99); both banks are still positive, so the session continues, and the
next new_hand drives the player's bank to -4. -/
theorem C2_counterexample : Reachable ⟨-4, 94, 10⟩ ∧ ((-4 : Int) < 0) := by
  have hval : ValidDeal [(2, 2), (5, 3), (8, 1), (10, 0), (13, 2)]
      [(4, 0), (4, 1), (7, 2), (7, 3), (9, 0)] := by decide
  have hdisc : ai_choose_discards [(4, 0), (4, 1), (7, 2), (7, 3), (9, 0)] = [] := by
    decide
  have h0 : Reachable ⟨50, 50, 10⟩ := Reachable.init
  have h1 : Reachable ⟨43, 57, 0⟩ :=
    @Reachable.hand ⟨50, 50, 10⟩ [(2, 2), (5, 3), (8, 1), (10, 0), (13, 2)]
      [(4, 0), (4, 1), (7, 2), (7, 3), (9, 0)] [1] [1] [] [] [] [] [] []
      ⟨45, 45, 10, 0, some .ai, false, 0⟩ ⟨43, 43, 14, 0, some .ai, false, 0⟩
      h0 (by norm_num) (by norm_num) hval (by decide) hdisc (by decide)
  have h2 : Reachable ⟨36, 64, 0⟩ :=
    @Reachable.hand ⟨43, 57, 0⟩ [(2, 2), (5, 3), (8, 1), (10, 0), (13, 2)]
      [(4, 0), (4, 1), (7, 2), (7, 3), (9, 0)] [1] [1] [] [] [] [] [] []
      ⟨38, 52, 10, 0, some .ai, false, 0⟩ ⟨36, 50, 14, 0, some .ai, false, 0⟩
      h1 (by norm_num) (by norm_num) hval (by decide) hdisc (by decide)
  have h3 : Reachable ⟨29, 71, 0⟩ :=
    @Reachable.hand ⟨36, 64, 0⟩ [(2, 2), (5, 3), (8, 1), (10, 0), (13, 2)]
      [(4, 0), (4, 1), (7, 2), (7, 3), (9, 0)] [1] [1] [] [] [] [] [] []
      ⟨31, 59, 10, 0, some .ai, false, 0⟩ ⟨29, 57, 14, 0, some .ai, false, 0⟩
      h2 (by norm_num) (by norm_num) hval (by decide) hdisc (by decide)
  have h4 : Reachable ⟨22, 78, 0⟩ :=
    @Reachable.hand ⟨29, 71, 0⟩ [(2, 2), (5, 3), (8, 1), (10, 0), (13, 2)]
      [(4, 0), (4, 1), (7, 2), (7, 3), (9, 0)] [1] [1] [] [] [] [] [] []
      ⟨24, 66, 10, 0, some .ai, false, 0⟩ ⟨22, 64, 14, 0, some .ai, false, 0⟩
      h3 (by norm_num) (by norm_num) hval (by decide) hdisc (by decide)
  have h5 : Reachable ⟨15, 85, 0⟩ :=
    @Reachable.hand ⟨22, 78, 0⟩ [(2, 2), (5, 3), (8, 1), (10, 0), (13, 2)]
      [(4, 0), (4, 1), (7, 2), (7, 3), (9, 0)] [1] [1] [] [] [] [] [] []
      ⟨17, 73, 10, 0, some .ai, false, 0⟩ ⟨15, 71, 14, 0, some .ai, false, 0⟩
      h4 (by norm_num) (by norm_num) hval (by decide) hdisc (by decide)
  have h6 : Reachable ⟨8, 92, 0⟩ :=
    @Reachable.hand ⟨15, 85, 0⟩ [(2, 2), (5, 3), (8, 1), (10, 0), (13, 2)]
      [(4, 0), (4, 1), (7, 2), (7, 3), (9, 0)] [1] [1] [] [] [] [] [] []
      ⟨10, 80, 10, 0, some .ai, false, 0⟩ ⟨8, 78, 14, 0, some .ai, false, 0⟩
      h5 (by norm_num) (by norm_num) hval (by decide) hdisc (by decide)
  have h7 : Reachable ⟨1, 99, 0⟩ :=
    @Reachable.hand ⟨8, 92, 0⟩ [(2, 2), (5, 3), (8, 1), (10, 0), (13, 2)]
      [(4, 0), (4, 1), (7, 2), (7, 3), (9, 0)] [1] [1] [] [] [] [] [] []
      ⟨3, 87, 10, 0, some .ai, false, 0⟩ ⟨1, 85, 14, 0, some .ai, false, 0⟩
      h6 (by norm_num) (by norm_num) hval (by decide) hdisc (by decide)
  have h8 : Reachable ⟨-4, 94, 10⟩ :=
    Reachable.ante h7 (by norm_num) (by norm_num)
  exact ⟨h8, by norm_num⟩

/-- Claim C9: on a tied showdown the player gets floor(pot/2), the opponent
gets the rest (one chip more on an odd pot), the pot becomes 0, and the money
total is conserved. -/
theorem C9_showdown_tie_split (ph ah : List Card) (g : GameState)
    (h : compare_hands ph ah = 0) :
    showdown ph ah g =
      { g with player_bank := g.player_bank + g.pot.fdiv 2,
               ai_bank := g.ai_bank + (g.pot - g.pot.fdiv 2), pot := 0 } ∧
    (showdown ph ah g).pot = 0 ∧
    sessionTotal (showdown ph ah g) = sessionTotal g ∧
    (g.pot % 2 = 1 →
      (showdown ph ah g).ai_bank - g.ai_bank
        = ((showdown ph ah g).player_bank - g.player_bank) + 1) := by
  unfold showdown
  rw [h]
  norm_num [sessionTotal]
  refine ⟨by ring, fun hodd => ?_⟩
  have hq := Int.ediv_add_emod g.pot 2
  have hfe : g.pot.fdiv 2 = g.pot / 2 := Int.fdiv_eq_ediv g.pot (by norm_num)
  rw [hfe]
  omega

/-- Witness for C9: two tied high-card hands splitting an odd pot of 7. -/
theorem C9_witness :
    showdown [(14, 0), (12, 1), (9, 2), (7, 3), (5, 0)]
      [(14, 1), (12, 2), (9, 3), (7, 0), (5, 1)] ⟨10, 20, 7⟩ = ⟨13, 24, 0⟩ := by
  have h := (C9_showdown_tie_split [(14, 0), (12, 1), (9, 2), (7, 3), (5, 0)]
    [(14, 1), (12, 2), (9, 3), (7, 0), (5, 1)] ⟨10, 20, 7⟩ (by decide)).1
  exact h.trans (by decide)

/-- Claim C10 (counterexample): new_hand preserves the session total exactly
when the pot is 0 on entry, not 10: with pot 0 the total is preserved, and
with pot 10 (the constructor state) the total drops from 110 to 100, so
"preserves the total only when the pot is 10" fails in both directions. -/
theorem C10_counterexample :
    sessionTotal (GameState.new_hand ⟨50, 50, 0⟩) = sessionTotal ⟨50, 50, 0⟩ ∧
    (⟨50, 50, 0⟩ : GameState).pot ≠ 10 ∧
    sessionTotal (GameState.new_hand ⟨50, 50, 10⟩) ≠ sessionTotal ⟨50, 50, 10⟩ := by
  decide

/-- Claim C10 as amended: new_hand always sets the pot to exactly 10; the
constructor state has total 110 and the first new_hand drops it to 100; and
new_hand preserves the session total exactly when the pot is 0 on entry. -/
theorem C10_new_hand_total :
    (∀ g : GameState, (GameState.new_hand g).pot = 10) ∧
    sessionTotal GameState.init = 110 ∧
    sessionTotal (GameState.new_hand GameState.init) = 100 ∧
    (∀ g : GameState,
      sessionTotal (GameState.new_hand g) = sessionTotal g ↔ g.pot = 0) := by
  refine ⟨fun g => rfl, by decide, by decide, fun g => ?_⟩
  simp only [sessionTotal, GameState.new_hand]
  omega

end FiveCardDraw
